import Mathlib

/-!
Verification of the maintenance-planner core: a shallow embedding of the
SQLite-backed data model and of the handlers in `action_plan.rs`,
`executions.rs`, `backup.rs` and `main.rs`, together with theorems settling
the specification claims.

Identifiers (UUID v4 in the source) are modelled as naturals drawn from a
fresh-id counter carried in the database state; timestamps (i64 unix
seconds) are modelled as integers.  Each table is a list of rows in
insertion order; `INSERT` appends, `DELETE ... WHERE` filters, and
`UPDATE ... WHERE` maps a guarded row update, whose affected-row count is
the count of rows matching the guard.  `SELECT ... ORDER BY order_index`
is an explicit sort by the `order_index` column.
-/

namespace Planner

/-- An `actions` row. -/
structure Action where
  id : Nat
  name : String
deriving DecidableEq

/-- An `action_plans` row; `deleted_at` absent or `<= 0` means active. -/
structure ActionPlan where
  id : Nat
  name : String
  deleted_at : Option Int
deriving DecidableEq

/-- An `action_items` row (a plan item). -/
structure PlanItem where
  id : Nat
  order_index : Int
  action_plan : Nat
  action : Nat
deriving DecidableEq

/-- An `action_plan_executions` row; `finished` absent or `<= 0` means open. -/
structure Execution where
  id : Nat
  action_plan : Nat
  started : Int
  finished : Option Int
deriving DecidableEq

/-- An `action_item_executions` row.  The schema, inferred from the INSERT
column lists in the source, has BOTH a nullable `action_item` column
(written by `executions::create_post` and read by the join in
`executions::show`) and a nullable `action` column (written by the
reconciliation in `action_plan::update_plan_items` and by
`backup::import_json`, and read by the GC sweep and the backup export). -/
structure ExecutionItem where
  id : Nat
  action_item : Option Nat
  action : Option Nat
  order_index : Int
  action_plan_execution : Nat
  finished : Option Int
deriving DecidableEq

/-- The whole store; `next_id` is the supply of fresh UUIDs. -/
structure DB where
  action_plans : List ActionPlan
  actions : List Action
  action_items : List PlanItem
  action_plan_executions : List Execution
  action_item_executions : List ExecutionItem
  next_id : Nat
deriving DecidableEq

/-- `Uuid::new_v4()`: draw a fresh identifier. -/
def freshId (db : DB) : Nat × DB :=
  (db.next_id, { db with next_id := db.next_id + 1 })

/-- The SQL guard `value IS NOT NULL AND value > 0` (negation of
`value IS NULL OR value <= 0`). -/
def timestampSet : Option Int → Bool
  | none => false
  | some v => decide (0 < v)

/-- The recoverable error kinds raised by the handlers
(`AppError::not_found_for` and `AppError::conflict`). -/
inductive AppErr where
  | notFound (entity : String)
  | conflict (message : String)
deriving DecidableEq

/-- Whether a handler result is a Conflict error. -/
def isConflict {α : Type} : Except AppErr α → Bool
  | .error (.conflict _) => true
  | _ => false

/-- Insertion of one element into a list sorted by an integer key. -/
def insertByKey {α : Type} (key : α → Int) (x : α) : List α → List α
  | [] => [x]
  | y :: ys => if key y ≤ key x then y :: insertByKey key x ys else x :: y :: ys

/-- `ORDER BY key ASC` over a row list. -/
def sortByKey {α : Type} (key : α → Int) : List α → List α
  | [] => []
  | y :: ys => insertByKey key y (sortByKey key ys)

/-- Rust `str::trim`: strip leading and trailing whitespace. -/
def trimString (s : String) : String :=
  ⟨((s.data.dropWhile Char.isWhitespace).reverse.dropWhile Char.isWhitespace).reverse⟩

/-- `action_plan::normalize_items`: trim every submitted item and drop the
ones that come out empty, keeping the order of the survivors. -/
def normalize_items (items : Option (List String)) : List String :=
  ((items.getD []).map trimString).filter (fun item => !(item == ""))

/-- i64 saturating subtraction (`i64::saturating_sub`). -/
def i64SatSub (a b : Int) : Int :=
  max (min (a - b) (2 ^ 63 - 1)) (-(2 ^ 63))

/-- `SELECT id FROM actions WHERE name = $1` / `fetch_optional`. -/
def findActionByName (db : DB) (name : String) : Option Action :=
  db.actions.find? (fun a => a.name == name)

/-- `SELECT ... FROM action_plan_executions WHERE id = $1` / `fetch_optional`. -/
def findExecution (db : DB) (eid : Nat) : Option Execution :=
  db.action_plan_executions.find? (fun e => e.id == eid)

/-- The name-lookup-then-insert step inlined in
`action_plan::update_plan_items` (lines 329-347): look the action up by
exact name; if absent, insert one under a fresh id. -/
def ensureActionInline (db : DB) (name : String) : Nat × DB :=
  match findActionByName db name with
  | some a => (a.id, db)
  | none =>
    let (aid, db1) := freshId db
    (aid, { db1 with actions := db1.actions ++ [⟨aid, name⟩] })

/-- One turn of the item-insertion loop of `update_plan_items`: ensure the
action for one name and append the `action_items` row with its order
index. -/
def planItemStep (db : DB) (plan_id : Nat) (n : String) (order : Nat) : DB :=
  let (aid, db1) := ensureActionInline db n
  let (iid, db2) := freshId db1
  { db2 with action_items := db2.action_items ++ [⟨iid, (order : Int), plan_id, aid⟩] }

/-- The item-insertion loop of `action_plan::update_plan_items`
(lines 328-359): for each normalized name in order, ensure the action and
append an `action_items` row with the next dense order index. -/
def insertPlanItems (db : DB) (plan_id : Nat) (names : List String) (order : Nat) : DB :=
  match names with
  | [] => db
  | n :: rest => insertPlanItems (planItemStep db plan_id n order) plan_id rest (order + 1)

/-- The plan-item wipe of `update_plan_items`:
`DELETE FROM action_items WHERE action_plan = $1`. -/
def deletePlanItems (db : DB) (plan_id : Nat) : DB :=
  { db with action_items := db.action_items.filter (fun i => !(i.action_plan == plan_id)) }

/-- Overwrite-insert into the progress snapshot
(`HashMap::insert` semantics: the latest value for a name wins). -/
def snapInsert (m : List (String × Option Int)) (k : String) (v : Option Int) :
    List (String × Option Int) :=
  (k, v) :: m.filter (fun p => !(p.1 == k))

/-- `action_plan::update_plan_items`: the plan-item replacement and, when an
execution id is supplied, the reconciliation that snapshots execution-item
progress by action name (joining `action_item_executions.action` to
`actions`), deletes the execution items, rewrites the plan items, and
reinserts one execution item per fresh plan item with the carried-over
finished timestamp. -/
def update_plan_items (db : DB) (plan_id : Nat) (items : Option (List String))
    (execution_id : Option Nat) : DB :=
  let step1 : List (String × Option Int) × DB :=
    match execution_id with
    | none => ([], db)
    | some e =>
      let rows := db.action_item_executions.filter (fun r => r.action_plan_execution == e)
      let snap := rows.foldl (fun m row =>
        match row.action.bind (fun aid => db.actions.find? (fun a => a.id == aid)) with
        | some act => snapInsert m act.name row.finished
        | none => m) []
      (snap, { db with action_item_executions :=
        db.action_item_executions.filter (fun r => !(r.action_plan_execution == e)) })
  let snap := step1.1
  let db1 := step1.2
  let db2 := deletePlanItems db1 plan_id
  let db3 := insertPlanItems db2 plan_id (normalize_items items) 0
  match execution_id with
  | none => db3
  | some e =>
    let new_plan_items :=
      (sortByKey (fun i => i.order_index)
        (db3.action_items.filter (fun i => i.action_plan == plan_id))).filterMap
        (fun pi => (db3.actions.find? (fun a => a.id == pi.action)).map
          (fun act => (pi, act.name)))
    new_plan_items.foldl (fun acc p =>
      let (iid, acc1) := freshId acc
      { acc1 with action_item_executions := acc1.action_item_executions ++
        [⟨iid, none, some p.1.action, p.1.order_index, e, (snap.lookup p.2).join⟩] }) db3

/-- `action_plan::new_post`: insert an active plan under a fresh id, then
replace its items; returns the new plan id. -/
def new_post (db : DB) (name : String) (items : Option (List String)) : Nat × DB :=
  let (plan_id, db1) := freshId db
  let db2 := { db1 with action_plans := db1.action_plans ++ [⟨plan_id, name, none⟩] }
  (plan_id, update_plan_items db2 plan_id items none)

/-- `action_plan::edit_post`: rename the plan (guarded on it being active,
NotFound when no row is affected) and run `update_plan_items` with the
optional execution id. -/
def edit_post (db : DB) (id : Nat) (name : String) (items : Option (List String))
    (execution_id : Option Nat) : Except AppErr DB :=
  let affected := db.action_plans.countP
    (fun p => p.id == id && !timestampSet p.deleted_at)
  if affected == 0 then .error (.notFound "Action Plan")
  else
    let db1 := { db with action_plans := db.action_plans.map (fun p =>
      if p.id == id && !timestampSet p.deleted_at then { p with name := name } else p) }
    .ok (update_plan_items db1 id items execution_id)

/-- `executions::create_post`: require the plan row to exist (any deletion
state), insert an open execution, and copy the plan items into execution
items referencing them through the `action_item` column (the `action`
column is not in the INSERT list and is left NULL). -/
def create_post (db : DB) (plan_id : Nat) (now : Int) : Except AppErr (Nat × DB) :=
  if (db.action_plans.find? (fun p => p.id == plan_id)).isNone then
    .error (.notFound "Action Plan")
  else
    let (eid, db1) := freshId db
    let db2 := { db1 with action_plan_executions :=
      db1.action_plan_executions ++ [⟨eid, plan_id, now, none⟩] }
    let template := sortByKey (fun i => i.order_index)
      (db2.action_items.filter (fun i => i.action_plan == plan_id))
    let db3 := template.foldl (fun acc item =>
      let (iid, acc1) := freshId acc
      { acc1 with action_item_executions := acc1.action_item_executions ++
        [⟨iid, some item.id, none, item.order_index, eid, none⟩] }) db2
    .ok (eid, db3)

/-- The checklist-line query of `executions::show` (lines 172-192): the
execution items ordered by order index, inner-joined to `action_items` via
the `action_item` column and then to `actions` for the name.  Rows whose
`action_item` is NULL or dangling are dropped by the inner join. -/
def showExecutionItems (db : DB) (eid : Nat) : List (String × Option Int) :=
  (sortByKey (fun r => r.order_index)
    (db.action_item_executions.filter (fun r => r.action_plan_execution == eid))).filterMap
    (fun row =>
      (row.action_item.bind (fun ai => db.action_items.find? (fun pi => pi.id == ai))).bind
        (fun pi => (db.actions.find? (fun a => a.id == pi.action)).map
          (fun act => (act.name, row.finished))))

/-- The `can_complete` flag computed by `executions::show` (line 220): the
displayed item list is non-empty and every line is finished. -/
def canComplete (db : DB) (eid : Nat) : Bool :=
  let items := showExecutionItems db eid
  !items.isEmpty && items.all (fun item => timestampSet item.2)

/-- The execution-item view used by the reconciliation snapshot and by the
backup export: items joined to `actions` directly via the `action` column. -/
def executionItemsByAction (db : DB) (eid : Nat) : List (String × Option Int) :=
  (sortByKey (fun r => r.order_index)
    (db.action_item_executions.filter (fun r => r.action_plan_execution == eid))).filterMap
    (fun row =>
      (row.action.bind (fun aid => db.actions.find? (fun a => a.id == aid))).map
        (fun act => (act.name, row.finished)))

/-- `executions::set_item_finished_post`: set or clear one execution item
finished timestamp; NotFound when no row was affected. -/
def set_item_finished_post (db : DB) (item_id : Nat) (fin : Bool) (now : Int) :
    Except AppErr DB :=
  let newVal : Option Int := if fin then some now else none
  let affected := db.action_item_executions.countP (fun r => r.id == item_id)
  if affected == 0 then .error (.notFound "Execution")
  else .ok { db with action_item_executions := db.action_item_executions.map (fun r =>
    if r.id == item_id then { r with finished := newVal } else r) }

/-- The guarded UPDATE of `complete_get`: set `finished = now` on the rows
with the given id that are still open. -/
def completeUpdate (db : DB) (eid : Nat) (now : Int) : DB :=
  { db with action_plan_executions := db.action_plan_executions.map (fun x =>
    if x.id == eid && !timestampSet x.finished then { x with finished := some now } else x) }

/-- `executions::complete_get`: NotFound when the execution is missing,
Conflict when any of its items is unfinished, otherwise a guarded
`UPDATE ... SET finished = now WHERE ... finished IS NULL OR finished <= 0`
that silently leaves an already-completed execution unchanged. -/
def complete_get (db : DB) (eid : Nat) (now : Int) : Except AppErr DB :=
  if (findExecution db eid).isNone then .error (.notFound "Execution")
  else
    let incomplete := db.action_item_executions.countP
      (fun r => r.action_plan_execution == eid && !timestampSet r.finished)
    if 0 < incomplete then
      .error (.conflict "All items must be checked before completing this execution.")
    else
      .ok (completeUpdate db eid now)

/-- The UPDATE of `reopen_get`: clear `finished` on the rows with the
given id. -/
def reopenClear (db : DB) (eid : Nat) : DB :=
  { db with action_plan_executions := db.action_plan_executions.map (fun x =>
    if x.id == eid then { x with finished := none } else x) }

/-- `executions::reopen_get`: NotFound when missing; Conflict when the
finished column is NULL (already open); Conflict when it is `<= 0` or the
saturating difference to now exceeds 24 hours; otherwise clear `finished`. -/
def reopen_get (db : DB) (eid : Nat) (now : Int) : Except AppErr DB :=
  match findExecution db eid with
  | none => .error (.notFound "Execution")
  | some e =>
    match e.finished with
    | none => .error (.conflict "Execution is already open.")
    | some finished_at =>
      if finished_at ≤ 0 ∨ 24 * 60 * 60 < i64SatSub now finished_at then
        .error (.conflict "Execution can only be reopened within 24 hours of completion.")
      else
        .ok (reopenClear db eid)

/-- The guarded UPDATE of `undelete_post`: clear `deleted_at` on the
soft-deleted rows with the given id. -/
def undeleteClear (db : DB) (pid : Nat) : DB :=
  { db with action_plans := db.action_plans.map (fun p =>
    if p.id == pid && timestampSet p.deleted_at then { p with deleted_at := none } else p) }

/-- `action_plan::undelete_post`: a guarded
`UPDATE action_plans SET deleted_at = NULL WHERE id = $1 AND deleted_at > 0`;
when no row is affected the handler reports NotFound. -/
def undelete_post (db : DB) (id : Nat) : Except AppErr DB :=
  let affected := db.action_plans.countP
    (fun p => p.id == id && timestampSet p.deleted_at)
  if affected == 0 then .error (.notFound "Action Plan")
  else .ok (undeleteClear db id)

/-- Whether an action id is referenced, in the sense of the GC query in
`main.rs` (lines 463-480): by some `action_items.action` or by some
`action_item_executions.action`. -/
def actionReferenced (db : DB) (aid : Nat) : Bool :=
  db.action_items.any (fun i => i.action == aid) ||
    db.action_item_executions.any (fun r => r.action == some aid)

/-- `main::collect_and_delete_unused_actions`: select every action with no
reference from either table, delete each by id, and return the selection. -/
def collect_and_delete_unused_actions (db : DB) : List Action × DB :=
  let unused := db.actions.filter (fun a => !actionReferenced db a.id)
  (unused, { db with actions :=
    db.actions.filter (fun a => !(unused.any (fun u => u.id == a.id))) })

/-- A plan item of a parsed backup document. -/
structure BackupPlanItem where
  order_index : Int
  action_name : String
deriving DecidableEq

/-- A plan of a parsed backup document. -/
structure BackupActionPlan where
  id : Nat
  name : String
  deleted_at : Option Int
  items : List BackupPlanItem
deriving DecidableEq

/-- An execution item of a parsed backup document. -/
structure BackupExecutionItem where
  order_index : Int
  action_name : String
  finished : Option Int
deriving DecidableEq

/-- An execution of a parsed backup document. -/
structure BackupExecution where
  id : Nat
  action_plan : Nat
  started : Int
  finished : Option Int
  items : List BackupExecutionItem
deriving DecidableEq

/-- A parsed backup document (`backup::BackupFile`). -/
structure BackupFile where
  version : Int
  exported_at_unix : Int
  action_plans : List BackupActionPlan
  action_plan_executions : List BackupExecution
deriving DecidableEq

/-- The validation errors reported by `backup::import_json` after parsing. -/
inductive ImportErr where
  | unsupportedVersion (v : Int)
  | duplicatePlanId (id : Nat)
  | executionUnknownPlan (eid pid : Nat)
deriving DecidableEq

/-- The duplicate-id scan of `import_json` (the `HashSet` loop over the
plans, in document order): the first plan id already seen, if any. -/
def firstDupAux (seen : List Nat) : List BackupActionPlan → Option Nat
  | [] => none
  | p :: rest => if seen.contains p.id then some p.id else firstDupAux (p.id :: seen) rest

/-- First duplicated plan id of a backup document, if any. -/
def firstDuplicatePlanId (plans : List BackupActionPlan) : Option Nat :=
  firstDupAux [] plans

/-- The execution validation of `import_json`: the first execution (in
document order) whose plan id is not in the document plan set, if any,
together with the offending plan id. -/
def firstUnknownExecution (planIds : List Nat) (execs : List BackupExecution) :
    Option (Nat × Nat) :=
  (execs.find? (fun e => !(planIds.contains e.action_plan))).map
    (fun e => (e.id, e.action_plan))

/-- `backup::ensure_action_id`: look the name up in the in-memory
name-to-id map built during the import; on a miss insert a fresh action row
(without consulting the table) and record it in the map. -/
def ensure_action_id (st : List (String × Nat) × DB) (name : String) :
    Nat × (List (String × Nat) × DB) :=
  match st.1.lookup name with
  | some aid => (aid, st)
  | none =>
    let (aid, db1) := freshId st.2
    (aid, ((name, aid) :: st.1, { db1 with actions := db1.actions ++ [⟨aid, name⟩] }))

/-- One plan-item insertion of the import loop. -/
def importPlanItemStep (pid : Nat) (st : List (String × Nat) × DB) (it : BackupPlanItem) :
    List (String × Nat) × DB :=
  let (aid, st1) := ensure_action_id st it.action_name
  let (iid, db1) := freshId st1.2
  (st1.1, { db1 with action_items := db1.action_items ++ [⟨iid, it.order_index, pid, aid⟩] })

/-- One plan insertion of the import loop, with its items. -/
def importPlanStep (st : List (String × Nat) × DB) (p : BackupActionPlan) :
    List (String × Nat) × DB :=
  let db1 := { st.2 with action_plans := st.2.action_plans ++ [⟨p.id, p.name, p.deleted_at⟩] }
  p.items.foldl (importPlanItemStep p.id) (st.1, db1)

/-- One execution-item insertion of the import loop (the `action` column is
set, `action_item` is not in the INSERT list and stays NULL). -/
def importExecItemStep (eid : Nat) (st : List (String × Nat) × DB) (it : BackupExecutionItem) :
    List (String × Nat) × DB :=
  let (aid, st1) := ensure_action_id st it.action_name
  let (iid, db1) := freshId st1.2
  (st1.1, { db1 with action_item_executions :=
    db1.action_item_executions ++ [⟨iid, none, some aid, it.order_index, eid, it.finished⟩] })

/-- One execution insertion of the import loop, with its items. -/
def importExecStep (st : List (String × Nat) × DB) (e : BackupExecution) :
    List (String × Nat) × DB :=
  let db1 := { st.2 with action_plan_executions :=
    st.2.action_plan_executions ++ [⟨e.id, e.action_plan, e.started, e.finished⟩] }
  e.items.foldl (importExecItemStep e.id) (st.1, db1)

/-- The table wipe at the start of the import transaction: delete every
row of the five content tables (in foreign-key-safe order in the source). -/
def wipeTables (db : DB) : DB :=
  { db with
    action_plans := []
    actions := []
    action_items := []
    action_plan_executions := []
    action_item_executions := [] }

/-- `backup::import_json` on a parsed document: validate the version, plan
id uniqueness and execution plan references (in that order, reporting the
specific failure and leaving the store untouched); on success wipe the five
tables and reinsert everything from the document in one transaction,
recreating actions on demand through the name-to-id map. -/
def import_json (db : DB) (b : BackupFile) : Except ImportErr Unit × DB :=
  if b.version ≠ 1 then (.error (.unsupportedVersion b.version), db)
  else
    match firstDuplicatePlanId b.action_plans with
    | some pid => (.error (.duplicatePlanId pid), db)
    | none =>
      let planIds := b.action_plans.map (fun p => p.id)
      match firstUnknownExecution planIds b.action_plan_executions with
      | some pr => (.error (.executionUnknownPlan pr.1 pr.2), db)
      | none =>
        let st1 := b.action_plans.foldl importPlanStep ([], wipeTables db)
        let st2 := b.action_plan_executions.foldl importExecStep st1
        (.ok (), st2.2)

/-- The empty store. -/
def emptyDB : DB := ⟨[], [], [], [], [], 0⟩

/-- Turn an optional query result into a handler result. -/
def require {α : Type} (o : Option α) (entity : String) : Except AppErr α :=
  match o with
  | some a => .ok a
  | none => .error (.notFound entity)

/-- Locate an execution item id by the display name of its checklist line
(through the `action_item` join used by `executions::show`). -/
def execItemIdByName (db : DB) (eid : Nat) (n : String) : Option Nat :=
  ((db.action_item_executions.filter (fun r => r.action_plan_execution == eid)).find?
    (fun r =>
      match (r.action_item.bind (fun ai => db.action_items.find? (fun pi => pi.id == ai))).bind
          (fun pi => db.actions.find? (fun a => a.id == pi.action)) with
      | some act => act.name == n
      | none => false)).map (fun r => r.id)

/-- The reconciliation round-trip of the spec, step by step on the code:
create a plan with items A, B, C; create an execution from it; mark A and C
finished; edit the plan to items B, C, D passing the execution id; return
the execution checklist (action name and finished timestamp, via the
`action` column the reconciliation itself writes). -/
def c1Result : Except AppErr (List (String × Option Int)) := do
  let (pid, db1) := new_post emptyDB "P" (some ["A", "B", "C"])
  let (eid, db2) ← create_post db1 pid 100
  let idA ← require (execItemIdByName db2 eid "A") "item A"
  let idC ← require (execItemIdByName db2 eid "C") "item C"
  let db3 ← set_item_finished_post db2 idA true 200
  let db4 ← set_item_finished_post db3 idC true 300
  let db5 ← edit_post db4 pid "P" (some ["B", "C", "D"]) (some eid)
  pure (executionItemsByAction db5 eid)

/-- The frame scenario of the spec: create a plan with item A, create an
execution, then edit the plan without an execution id (to the very same
item list); return the checklist lines `executions::show` displays before
and after the edit. -/
def c2Result : Except AppErr (List (String × Option Int) × List (String × Option Int)) := do
  let (pid, db1) := new_post emptyDB "P" (some ["A"])
  let (eid, db2) ← create_post db1 pid 100
  let before := showExecutionItems db2 eid
  let db3 ← edit_post db2 pid "P" (some ["A"]) none
  pure (before, showExecutionItems db3 eid)

/-- C1.  The reconciliation round-trip fails on the code: after creating a
plan with items A, B, C, creating an execution, marking A and C finished
and editing the plan to B, C, D with that execution id, item C comes back
UNFINISHED (the carried-over timestamp 300 claimed by the spec is lost),
because the execution items written by `executions::create_post` reference
plan items through the `action_item` column and leave `action` NULL, while
the progress snapshot of `update_plan_items` joins through `action` and so
finds nothing to carry over. -/
theorem c1_reconciliation_drops_carried_progress :
    c1Result = .ok [("B", none), ("C", none), ("D", none)] := by
  rfl

/-- C2.  Execution checklist lines do not survive a plan edit made without
an execution id: before the edit `executions::show` lists the line A, and
after `update_plan_items` has deleted and recreated the plan items (with
the identical item list) the very same query returns no lines at all,
because the inner join through the now-dangling `action_item` column drops
every row. -/
theorem c2_show_loses_items_after_plan_edit :
    c2Result = .ok ([("A", none)], []) := by
  rfl

theorem find_map_eq {α : Type} (g : α → α) (p : α → Bool) (hp : ∀ x, p (g x) = p x)
    (l : List α) : (l.map g).find? p = (l.find? p).map g := by
  induction l with
  | nil => rfl
  | cons x xs ih =>
    by_cases h : p x = true
    · have h2 : p (g x) = true := by rw [hp]; exact h
      simp [List.find?, h, h2]
    · have h2 : p (g x) = false := by rw [hp]; simpa using h
      have h3 : p x = false := by simpa using h
      simp [List.find?, h2, h3, ih]

theorem i64SatSub_eq_sub (a b : Int) (h0 : 0 ≤ a) (h1 : a < 2 ^ 63) (h2 : 0 < b)
    (h3 : b < 2 ^ 63) : i64SatSub a b = a - b := by
  unfold i64SatSub
  rw [min_eq_left (by omega), max_eq_left (by omega)]

/-- C3.  After a GC sweep no unreferenced action remains and every
referenced action survives, where a reference is a matching
`action_items.action` or `action_item_executions.action` value, exactly as
in the two NOT EXISTS subqueries of the sweep. -/
theorem sweep_unreferenced_spec (db : DB) :
    (∀ a ∈ (collect_and_delete_unused_actions db).2.actions,
      actionReferenced (collect_and_delete_unused_actions db).2 a.id = true) ∧
    (∀ a ∈ db.actions, actionReferenced db a.id = true →
      a ∈ (collect_and_delete_unused_actions db).2.actions) := by
  constructor
  · intro a ha
    have hsame : actionReferenced (collect_and_delete_unused_actions db).2 a.id =
        actionReferenced db a.id := rfl
    rw [hsame]
    simp only [collect_and_delete_unused_actions, List.mem_filter] at ha
    obtain ⟨hmem, hpred⟩ := ha
    by_contra href
    have hrefF : actionReferenced db a.id = false := by
      cases h : actionReferenced db a.id
      · rfl
      · exact absurd h href
    have hunused : a ∈ db.actions.filter (fun a => !actionReferenced db a.id) :=
      List.mem_filter.mpr ⟨hmem, by rw [hrefF]; rfl⟩
    have hany : (db.actions.filter (fun a => !actionReferenced db a.id)).any
        (fun u => u.id == a.id) = true :=
      List.any_eq_true.mpr ⟨a, hunused, by simp⟩
    rw [hany] at hpred
    simp at hpred
  · intro a ha href
    simp only [collect_and_delete_unused_actions, List.mem_filter]
    refine ⟨ha, ?_⟩
    have hany : (db.actions.filter (fun a => !actionReferenced db a.id)).any
        (fun u => u.id == a.id) = false := by
      rw [← Bool.not_eq_true, List.any_eq_true]
      rintro ⟨u, hu, hequ⟩
      obtain ⟨humem, hupred⟩ := List.mem_filter.mp hu
      have : u.id = a.id := by simpa using hequ
      rw [this, href] at hupred
      simp at hupred
    rw [hany]
    rfl

/-- The store for the C3 witness: action 0 is referenced by a plan item,
action 1 is orphaned. -/
def c3DB : DB :=
  ⟨[], [⟨0, "A"⟩, ⟨1, "B"⟩], [⟨2, 0, 9, 0⟩], [], [], 3⟩

theorem sweep_unreferenced_spec_witness :
    (⟨0, "A"⟩ : Action) ∈ (collect_and_delete_unused_actions c3DB).2.actions :=
  (sweep_unreferenced_spec c3DB).2 ⟨0, "A"⟩ (by decide) (by decide)


theorem findExecution_completeUpdate (db : DB) (eid : Nat) (now : Int) :
    findExecution (completeUpdate db eid now) eid =
      (findExecution db eid).map (fun e =>
        if e.id == eid && !timestampSet e.finished
        then { e with finished := some now } else e) := by
  unfold findExecution completeUpdate
  exact find_map_eq _ _
    (fun x => by cases hc : (x.id == eid && !timestampSet x.finished) <;> simp [hc]) _

theorem findExecution_reopenClear (db : DB) (eid : Nat) :
    findExecution (reopenClear db eid) eid =
      (findExecution db eid).map (fun e =>
        if e.id == eid then { e with finished := none } else e) := by
  unfold findExecution reopenClear
  exact find_map_eq _ _
    (fun x => by cases hc : (x.id == eid) <;> simp [hc]) _

/-- C4.  Completing an execution that exists fails with Conflict as soon as
one of its items is unfinished; when every item is finished and the
execution is already completed, the call succeeds and the stored finished
timestamp is unchanged (the guarded UPDATE matches no row). -/
theorem complete_get_spec (db : DB) (eid : Nat) (now : Int) (e : Execution)
    (he : findExecution db eid = some e) :
    (0 < db.action_item_executions.countP
        (fun r => r.action_plan_execution == eid && !timestampSet r.finished) →
      complete_get db eid now =
        .error (.conflict "All items must be checked before completing this execution.")) ∧
    (db.action_item_executions.countP
        (fun r => r.action_plan_execution == eid && !timestampSet r.finished) = 0 →
      ∀ f, e.finished = some f → 0 < f →
      complete_get db eid now = .ok (completeUpdate db eid now) ∧
        findExecution (completeUpdate db eid now) eid = some e) := by
  have hnone : (findExecution db eid).isNone = false := by rw [he]; rfl
  constructor
  · intro hpos
    unfold complete_get
    rw [hnone]
    simp only [Bool.false_eq_true, if_false]
    rw [if_pos hpos]
  · intro hzero f hf hfpos
    constructor
    · unfold complete_get
      rw [hnone]
      simp only [Bool.false_eq_true, if_false]
      rw [if_neg (by omega)]
    · rw [findExecution_completeUpdate, he]
      have hts : timestampSet e.finished = true := by
        rw [hf]; unfold timestampSet; simpa using hfpos
      simp [hts]

/-- The store for the C4 witness: execution 5 is completed at 50 and its
single item is finished. -/
def c4DB : DB :=
  ⟨[⟨0, "P", none⟩], [], [], [⟨5, 0, 10, some 50⟩], [⟨6, none, none, 0, 5, some 20⟩], 7⟩

theorem complete_get_spec_witness :
    complete_get c4DB 5 999 = .ok (completeUpdate c4DB 5 999) ∧
      findExecution (completeUpdate c4DB 5 999) 5 = some ⟨5, 0, 10, some 50⟩ :=
  (complete_get_spec c4DB 5 999 ⟨5, 0, 10, some 50⟩ (by decide)).2 (by decide)
    50 rfl (by decide)

/-- C5.  Reopening: NotFound when the execution is missing; Conflict when
it is open (finished NULL, or `<= 0`); for a completed execution the call
succeeds exactly when `now - finished <= 86400` seconds (so it succeeds at
24h minus one second and conflicts at 24h plus one second), and on success
the finished timestamp is cleared.  The range bounds keep the i64
saturating subtraction of the source exact. -/
theorem reopen_get_spec (db : DB) (eid : Nat) (now : Int)
    (hnow0 : 0 ≤ now) (hnow1 : now < 2 ^ 63) :
    (findExecution db eid = none → reopen_get db eid now = .error (.notFound "Execution")) ∧
    (∀ e, findExecution db eid = some e → timestampSet e.finished = false →
      isConflict (reopen_get db eid now) = true) ∧
    (∀ e f, findExecution db eid = some e → e.finished = some f → 0 < f → f < 2 ^ 63 →
      ((now - f ≤ 86400 →
        reopen_get db eid now = .ok (reopenClear db eid) ∧
          findExecution (reopenClear db eid) eid = some { e with finished := none }) ∧
       (86400 < now - f →
        reopen_get db eid now =
          .error (.conflict "Execution can only be reopened within 24 hours of completion.")))) := by
  refine ⟨?_, ?_, ?_⟩
  · intro h
    unfold reopen_get
    rw [h]
  · intro e he hopen
    obtain ⟨a0, b0, c0, fin⟩ := e
    cases fin with
    | none =>
      unfold reopen_get
      rw [he]
      rfl
    | some f =>
      have hle : f ≤ 0 := by
        unfold timestampSet at hopen
        simpa using hopen
      have hcond : (f ≤ 0 ∨ 86400 < i64SatSub now f) := Or.inl hle
      unfold reopen_get
      rw [he]
      simp [isConflict, hcond]
  · intro e f he hf hfpos hfrange
    obtain ⟨a0, b0, c0, fin⟩ := e
    simp only at hf
    subst hf
    have hsat : i64SatSub now f = now - f :=
      i64SatSub_eq_sub now f hnow0 hnow1 hfpos hfrange
    have hid : (a0 == eid) = true :=
      @List.find?_some Execution (fun x => x.id == eid) ⟨a0, b0, c0, some f⟩
        db.action_plan_executions he
    have hid2 : a0 = eid := by simpa using hid
    constructor
    · intro hle
      have hcond : ¬(f ≤ 0 ∨ 86400 < i64SatSub now f) := by
        rw [hsat]; push_neg; omega
      constructor
      · unfold reopen_get
        rw [he]
        simp [hcond]
      · rw [findExecution_reopenClear, he]
        simp [hid2]
    · intro hgt
      have hcond : (f ≤ 0 ∨ 86400 < i64SatSub now f) := by
        rw [hsat]; omega
      unfold reopen_get
      rw [he]
      simp [hcond]

/-- The store for the C5 witness: execution 5 completed at time 100. -/
def c5DB : DB :=
  ⟨[⟨0, "P", none⟩], [], [], [⟨5, 0, 10, some 100⟩], [], 6⟩

theorem reopen_get_spec_witness :
    (reopen_get c5DB 5 86499 = .ok (reopenClear c5DB 5) ∧
      findExecution (reopenClear c5DB 5) 5 = some ⟨5, 0, 10, none⟩) ∧
    reopen_get c5DB 5 86501 =
      .error (.conflict "Execution can only be reopened within 24 hours of completion.") := by
  constructor
  · exact ((reopen_get_spec c5DB 5 86499 (by decide) (by decide)).2.2
      ⟨5, 0, 10, some 100⟩ 100 (by decide) rfl (by decide) (by decide)).1 (by decide)
  · exact ((reopen_get_spec c5DB 5 86501 (by decide) (by decide)).2.2
      ⟨5, 0, 10, some 100⟩ 100 (by decide) rfl (by decide) (by decide)).2 (by decide)

/-- The store refuting C6 as stated: one active (never-deleted) plan. -/
def c6DB : DB := ⟨[⟨0, "P", none⟩], [], [], [], [], 1⟩

/-- C6 counterexample.  Undeleting a plan that is not currently
soft-deleted does NOT fail with Conflict as the claim states: the handler
(`action_plan::undelete_post`) reports NotFound when the guarded UPDATE
affects no row. -/
theorem c6_undelete_active_reports_notfound :
    isConflict (undelete_post c6DB 0) = false ∧
    undelete_post c6DB 0 = .error (.notFound "Action Plan") := by
  exact ⟨rfl, rfl⟩

/-- C6 amended.  Undelete fails with NotFound (not Conflict) when no row
with the given id is currently soft-deleted — including a missing or an
active plan — and otherwise clears the deleted_at marker of every
soft-deleted row with that id, making the plan active again. -/
theorem undelete_post_spec (db : DB) (pid : Nat) :
    ((∀ p ∈ db.action_plans, ¬(p.id = pid ∧ timestampSet p.deleted_at = true)) →
      undelete_post db pid = .error (.notFound "Action Plan")) ∧
    (∀ p, p ∈ db.action_plans → p.id = pid → timestampSet p.deleted_at = true →
      undelete_post db pid = .ok (undeleteClear db pid) ∧
        ∀ q ∈ (undeleteClear db pid).action_plans, q.id = pid →
          timestampSet q.deleted_at = false) := by
  constructor
  · intro hnone
    have hcnt : db.action_plans.countP
        (fun p => p.id == pid && timestampSet p.deleted_at) = 0 := by
      apply List.countP_eq_zero.mpr
      intro p hp hpred
      have hpred2 : p.id = pid ∧ timestampSet p.deleted_at = true := by
        simpa using hpred
      exact hnone p hp hpred2
    unfold undelete_post
    rw [hcnt]
    rfl
  · intro p hp hpid hts
    have hcnt : db.action_plans.countP
        (fun q => q.id == pid && timestampSet q.deleted_at) ≠ 0 := by
      intro h0
      have := List.countP_eq_zero.mp h0 p hp
      apply this
      simp [hpid, hts]
    constructor
    · unfold undelete_post
      rw [if_neg (by simpa using hcnt)]
    · intro q hq hqid
      obtain ⟨x, hx, hgx⟩ := List.mem_map.mp hq
      by_cases hcond : (x.id == pid && timestampSet x.deleted_at) = true
      · rw [if_pos hcond] at hgx
        rw [← hgx]
        rfl
      · rw [if_neg hcond] at hgx
        rw [← hgx] at hqid ⊢
        cases hts2 : timestampSet x.deleted_at with
        | false => rfl
        | true => exact absurd (by simp [hqid, hts2]) hcond

/-- The store for the C6 witness: plan 0 soft-deleted at time 77. -/
def c6DelDB : DB := ⟨[⟨0, "P", some 77⟩], [], [], [], [], 1⟩

theorem undelete_post_spec_witness :
    undelete_post c6DelDB 0 = .ok (undeleteClear c6DelDB 0) ∧
      ∀ q ∈ (undeleteClear c6DelDB 0).action_plans, q.id = 0 →
        timestampSet q.deleted_at = false :=
  (undelete_post_spec c6DelDB 0).2 ⟨0, "P", some 77⟩ (by decide) rfl (by decide)

/-- C10.  Completing an existing execution with zero execution items
succeeds and marks it completed (a positive finished timestamp, already
positive if it was completed before), while `executions::show` computes
`can_complete = false` for the very same execution because its displayed
item list is empty. -/
theorem complete_get_empty_spec (db : DB) (eid : Nat) (now : Int) (e : Execution)
    (he : findExecution db eid = some e)
    (hempty : db.action_item_executions.filter
      (fun r => r.action_plan_execution == eid) = [])
    (hnow : 0 < now) :
    canComplete db eid = false ∧
    ∃ f, complete_get db eid now = .ok (completeUpdate db eid now) ∧
      findExecution (completeUpdate db eid now) eid =
        some { e with finished := some f } ∧ 0 < f := by
  have hnone : (findExecution db eid).isNone = false := by rw [he]; rfl
  constructor
  · unfold canComplete showExecutionItems
    rw [hempty]
    rfl
  · have hcnt : db.action_item_executions.countP
        (fun r => r.action_plan_execution == eid && !timestampSet r.finished) = 0 := by
      apply List.countP_eq_zero.mpr
      intro r hr hpred
      have hbeq : (r.action_plan_execution == eid) = true := by
        have hpred2 : r.action_plan_execution = eid ∧ timestampSet r.finished = false := by
          simpa using hpred
        simpa using hpred2.1
      have hmem : r ∈ db.action_item_executions.filter
          (fun r => r.action_plan_execution == eid) :=
        List.mem_filter.mpr ⟨hr, hbeq⟩
      rw [hempty] at hmem
      exact absurd hmem (List.not_mem_nil r)
    have hid : (e.id == eid) = true :=
      @List.find?_some Execution (fun x => x.id == eid) e db.action_plan_executions he
    have hok : complete_get db eid now = .ok (completeUpdate db eid now) := by
      unfold complete_get
      rw [hnone]
      simp only [Bool.false_eq_true, if_false]
      rw [if_neg (by omega)]
    have hfind : findExecution (completeUpdate db eid now) eid =
        some (if e.id == eid && !timestampSet e.finished
          then { e with finished := some now } else e) := by
      rw [findExecution_completeUpdate, he]
      rfl
    cases hts : timestampSet e.finished with
    | false =>
      refine ⟨now, hok, ?_, hnow⟩
      rw [hfind, hid, hts]
      rfl
    | true =>
      obtain ⟨eida, eplan, estart, efin⟩ := e
      cases efin with
      | none => exact absurd hts (by simp [timestampSet])
      | some f0 =>
        have hf0 : 0 < f0 := by
          unfold timestampSet at hts
          simpa using hts
        refine ⟨f0, hok, ?_, hf0⟩
        rw [hfind, hid, hts]
        rfl

/-- The store for the C10 witness: execution 5 is open and has no items. -/
def c10DB : DB := ⟨[⟨0, "P", none⟩], [], [], [⟨5, 0, 10, none⟩], [], 6⟩

theorem complete_get_empty_spec_witness :
    canComplete c10DB 5 = false ∧
    ∃ f, complete_get c10DB 5 321 = .ok (completeUpdate c10DB 5 321) ∧
      findExecution (completeUpdate c10DB 5 321) 5 = some ⟨5, 0, 10, some f⟩ ∧ 0 < f :=
  complete_get_empty_spec c10DB 5 321 ⟨5, 0, 10, none⟩ (by decide) (by decide) (by decide)

theorem ensure_action_id_frame (st : List (String × Nat) × DB) (n : String) :
    (ensure_action_id st n).2.2.action_plans = st.2.action_plans ∧
    (ensure_action_id st n).2.2.action_plan_executions = st.2.action_plan_executions ∧
    (ensure_action_id st n).2.2.action_item_executions = st.2.action_item_executions := by
  unfold ensure_action_id
  split
  · exact ⟨rfl, rfl, rfl⟩
  · exact ⟨rfl, rfl, rfl⟩

theorem importPlanItemStep_frame (pid : Nat) (st : List (String × Nat) × DB)
    (it : BackupPlanItem) :
    (importPlanItemStep pid st it).2.action_plans = st.2.action_plans ∧
    (importPlanItemStep pid st it).2.action_plan_executions = st.2.action_plan_executions := by
  obtain ⟨h1, h2, h3⟩ := ensure_action_id_frame st it.action_name
  unfold importPlanItemStep
  rcases h : ensure_action_id st it.action_name with ⟨aid, st1⟩
  rw [h] at h1 h2
  exact ⟨h1, h2⟩

theorem foldl_planitems_frame (pid : Nat) (its : List BackupPlanItem) :
    ∀ st : List (String × Nat) × DB,
    (its.foldl (importPlanItemStep pid) st).2.action_plans = st.2.action_plans ∧
    (its.foldl (importPlanItemStep pid) st).2.action_plan_executions =
      st.2.action_plan_executions := by
  induction its with
  | nil => intro st; exact ⟨rfl, rfl⟩
  | cons it rest ih =>
    intro st
    rw [List.foldl_cons]
    obtain ⟨ha, hb⟩ := ih (importPlanItemStep pid st it)
    obtain ⟨hc, hd⟩ := importPlanItemStep_frame pid st it
    exact ⟨ha.trans hc, hb.trans hd⟩

theorem importPlanStep_facts (st : List (String × Nat) × DB) (p : BackupActionPlan) :
    (importPlanStep st p).2.action_plans =
      st.2.action_plans ++ [⟨p.id, p.name, p.deleted_at⟩] ∧
    (importPlanStep st p).2.action_plan_executions = st.2.action_plan_executions := by
  unfold importPlanStep
  obtain ⟨ha, hb⟩ := foldl_planitems_frame p.id p.items
    (st.1, { st.2 with action_plans := st.2.action_plans ++ [⟨p.id, p.name, p.deleted_at⟩] })
  exact ⟨ha, hb⟩

theorem foldl_planstep_facts (ps : List BackupActionPlan) :
    ∀ st : List (String × Nat) × DB,
    (ps.foldl importPlanStep st).2.action_plans =
      st.2.action_plans ++ ps.map (fun p => (⟨p.id, p.name, p.deleted_at⟩ : ActionPlan)) ∧
    (ps.foldl importPlanStep st).2.action_plan_executions = st.2.action_plan_executions := by
  induction ps with
  | nil => intro st; simp
  | cons p rest ih =>
    intro st
    rw [List.foldl_cons]
    obtain ⟨ha, hb⟩ := ih (importPlanStep st p)
    obtain ⟨hc, hd⟩ := importPlanStep_facts st p
    constructor
    · rw [ha, hc]
      simp
    · rw [hb, hd]

theorem importExecItemStep_frame (eid : Nat) (st : List (String × Nat) × DB)
    (it : BackupExecutionItem) :
    (importExecItemStep eid st it).2.action_plans = st.2.action_plans ∧
    (importExecItemStep eid st it).2.action_plan_executions = st.2.action_plan_executions := by
  obtain ⟨h1, h2, h3⟩ := ensure_action_id_frame st it.action_name
  unfold importExecItemStep
  rcases h : ensure_action_id st it.action_name with ⟨aid, st1⟩
  rw [h] at h1 h2
  exact ⟨h1, h2⟩

theorem foldl_execitems_frame (eid : Nat) (its : List BackupExecutionItem) :
    ∀ st : List (String × Nat) × DB,
    (its.foldl (importExecItemStep eid) st).2.action_plans = st.2.action_plans ∧
    (its.foldl (importExecItemStep eid) st).2.action_plan_executions =
      st.2.action_plan_executions := by
  induction its with
  | nil => intro st; exact ⟨rfl, rfl⟩
  | cons it rest ih =>
    intro st
    rw [List.foldl_cons]
    obtain ⟨ha, hb⟩ := ih (importExecItemStep eid st it)
    obtain ⟨hc, hd⟩ := importExecItemStep_frame eid st it
    exact ⟨ha.trans hc, hb.trans hd⟩

theorem importExecStep_facts (st : List (String × Nat) × DB) (e : BackupExecution) :
    (importExecStep st e).2.action_plans = st.2.action_plans ∧
    (importExecStep st e).2.action_plan_executions =
      st.2.action_plan_executions ++ [⟨e.id, e.action_plan, e.started, e.finished⟩] := by
  unfold importExecStep
  obtain ⟨ha, hb⟩ := foldl_execitems_frame e.id e.items
    (st.1, { st.2 with action_plan_executions :=
      st.2.action_plan_executions ++ [⟨e.id, e.action_plan, e.started, e.finished⟩] })
  exact ⟨ha, hb⟩

theorem foldl_execstep_facts (es : List BackupExecution) :
    ∀ st : List (String × Nat) × DB,
    (es.foldl importExecStep st).2.action_plans = st.2.action_plans ∧
    (es.foldl importExecStep st).2.action_plan_executions =
      st.2.action_plan_executions ++ es.map (fun e =>
        (⟨e.id, e.action_plan, e.started, e.finished⟩ : Execution)) := by
  induction es with
  | nil => intro st; simp
  | cons e rest ih =>
    intro st
    rw [List.foldl_cons]
    obtain ⟨ha, hb⟩ := ih (importExecStep st e)
    obtain ⟨hc, hd⟩ := importExecStep_facts st e
    constructor
    · rw [ha, hc]
    · rw [hb, hd]
      simp

/-- C7.  Import validation and atomicity: an unsupported version, a
duplicated plan id, or an execution referencing a plan outside the document
each produce their specific error with the store completely untouched (the
checks run before the transaction begins); when all validations pass, the
importing succeeds and the resulting store holds exactly the document plans
and executions, in document order — the wipe-and-reinsert happens as one
atomic step of the model, mirroring the single transaction of the source. -/
theorem import_json_spec (db : DB) (b : BackupFile) :
    (b.version ≠ 1 → import_json db b = (.error (.unsupportedVersion b.version), db)) ∧
    (∀ pid, b.version = 1 → firstDuplicatePlanId b.action_plans = some pid →
      import_json db b = (.error (.duplicatePlanId pid), db)) ∧
    (∀ eid pid, b.version = 1 → firstDuplicatePlanId b.action_plans = none →
      firstUnknownExecution (b.action_plans.map (fun p => p.id)) b.action_plan_executions
        = some (eid, pid) →
      import_json db b = (.error (.executionUnknownPlan eid pid), db)) ∧
    (b.version = 1 → firstDuplicatePlanId b.action_plans = none →
      firstUnknownExecution (b.action_plans.map (fun p => p.id)) b.action_plan_executions
        = none →
      (import_json db b).1 = .ok () ∧
      (import_json db b).2.action_plans =
        b.action_plans.map (fun p => (⟨p.id, p.name, p.deleted_at⟩ : ActionPlan)) ∧
      (import_json db b).2.action_plan_executions =
        b.action_plan_executions.map (fun e =>
          (⟨e.id, e.action_plan, e.started, e.finished⟩ : Execution))) := by
  refine ⟨?_, ?_, ?_, ?_⟩
  · intro hv
    unfold import_json
    rw [if_pos hv]
  · intro pid hv hdup
    unfold import_json
    rw [if_neg (by omega), hdup]
  · intro eid pid hv hdup hunk
    unfold import_json
    rw [if_neg (by omega), hdup]
    dsimp only
    rw [hunk]
  · intro hv hdup hunk
    have hred : import_json db b =
        (.ok (), (b.action_plan_executions.foldl importExecStep
          (b.action_plans.foldl importPlanStep ([], wipeTables db))).2) := by
      unfold import_json
      rw [if_neg (by omega), hdup]
      dsimp only
      rw [hunk]
    rw [hred]
    obtain ⟨ha, hb⟩ := foldl_execstep_facts b.action_plan_executions
      (b.action_plans.foldl importPlanStep ([], wipeTables db))
    obtain ⟨hc, hd⟩ := foldl_planstep_facts b.action_plans ([], wipeTables db)
    refine ⟨rfl, ?_, ?_⟩
    · rw [ha, hc]
      simp [wipeTables]
    · rw [hb, hd]
      simp [wipeTables]

/-- A populated store and a valid one-plan one-execution document for the
C7 witness. -/
def c7DB : DB :=
  ⟨[⟨0, "Old", none⟩], [⟨1, "X"⟩], [⟨2, 0, 0, 1⟩], [⟨3, 0, 5, none⟩], [], 4⟩

/-- The backup document for the C7 witness. -/
def c7Backup : BackupFile :=
  ⟨1, 1000,
    [⟨10, "Q", some 9, [⟨0, "Oil"⟩]⟩],
    [⟨11, 10, 500, some 600, [⟨0, "Oil", some 550⟩]⟩]⟩

theorem import_json_spec_witness :
    (import_json c7DB c7Backup).1 = .ok () ∧
    (import_json c7DB c7Backup).2.action_plans = [⟨10, "Q", some 9⟩] ∧
    (import_json c7DB c7Backup).2.action_plan_executions = [⟨11, 10, 500, some 600⟩] :=
  (import_json_spec c7DB c7Backup).2.2.2 rfl rfl rfl

theorem find_append_none {α : Type} {p : α → Bool} {l1 : List α} (l2 : List α)
    (h : l1.find? p = none) : (l1 ++ l2).find? p = l2.find? p := by
  simp [List.find?_append, h]

/-- The number of action rows carrying a given name. -/
def countActionsNamed (db : DB) (n : String) : Nat :=
  db.actions.countP (fun a => a.name == n)

/-- The fresh-insert branch shared by both ensure-action implementations:
append an action row with a fresh id. -/
def insertActionRow (db : DB) (n : String) : DB :=
  { db with
    actions := db.actions ++ [⟨db.next_id, n⟩]
    next_id := db.next_id + 1 }

/-- Iterated calls of the inline name-lookup-then-insert step of
`update_plan_items`, collecting the returned ids. -/
def iterEnsureInline (db : DB) (n : String) : Nat → List Nat × DB
  | 0 => ([], db)
  | Nat.succ k =>
    let (aid, db1) := ensureActionInline db n
    let (ids, db2) := iterEnsureInline db1 n k
    (aid :: ids, db2)

/-- Iterated calls of `backup::ensure_action_id`, collecting the returned
ids. -/
def iterEnsureId (st : List (String × Nat) × DB) (n : String) :
    Nat → List Nat × (List (String × Nat) × DB)
  | 0 => ([], st)
  | Nat.succ k =>
    let (aid, st1) := ensure_action_id st n
    let (ids, st2) := iterEnsureId st1 n k
    (aid :: ids, st2)

theorem ensureActionInline_found (db : DB) (n : String) (a : Action)
    (h : findActionByName db n = some a) : ensureActionInline db n = (a.id, db) := by
  unfold ensureActionInline
  rw [h]

theorem iterEnsureInline_stable (db : DB) (n : String) (a : Action)
    (h : findActionByName db n = some a) (k : Nat) :
    iterEnsureInline db n k = (List.replicate k a.id, db) := by
  induction k with
  | zero => rfl
  | succ k ih =>
    unfold iterEnsureInline
    rw [ensureActionInline_found db n a h]
    dsimp only
    rw [ih]
    rfl

theorem ensure_action_id_found (st : List (String × Nat) × DB) (n : String) (aid : Nat)
    (h : st.1.lookup n = some aid) : ensure_action_id st n = (aid, st) := by
  unfold ensure_action_id
  rw [h]

theorem iterEnsureId_stable (st : List (String × Nat) × DB) (n : String) (aid : Nat)
    (h : st.1.lookup n = some aid) (k : Nat) :
    iterEnsureId st n k = (List.replicate k aid, st) := by
  induction k with
  | zero => rfl
  | succ k ih =>
    unfold iterEnsureId
    rw [ensure_action_id_found st n aid h]
    dsimp only
    rw [ih]
    rfl

theorem countActionsNamed_pos_of_found (db : DB) (n : String) (a : Action)
    (h : findActionByName db n = some a) : 0 < countActionsNamed db n := by
  by_contra hc
  have h0 : countActionsNamed db n = 0 := by omega
  have := List.countP_eq_zero.mp h0 a
    (@List.mem_of_find?_eq_some Action (fun a => a.name == n) a db.actions h)
  exact this (@List.find?_some Action (fun a => a.name == n) a db.actions h)

/-- C9.  Repeated calls of the ensure-action step with one fixed name leave
exactly one action row with that name and return the same id every time:
for the table-lookup-then-insert step of item replacement (assuming at most
one row with the name beforehand, the schema uniqueness of action names),
and for the map-based step of the import (starting from the post-wipe state
of the import: nothing in the map, no row with the name). -/
theorem ensure_action_spec (db : DB) (st : List (String × Nat) × DB) (n : String)
    (k : Nat) (hk : 0 < k)
    (h1 : countActionsNamed db n ≤ 1)
    (h2 : st.1.lookup n = none) (h3 : countActionsNamed st.2 n = 0) :
    (countActionsNamed (iterEnsureInline db n k).2 n = 1 ∧
      ∃ aid, (iterEnsureInline db n k).1 = List.replicate k aid) ∧
    (countActionsNamed (iterEnsureId st n k).2.2 n = 1 ∧
      ∃ aid, (iterEnsureId st n k).1 = List.replicate k aid) := by
  constructor
  · cases hfind : findActionByName db n with
    | some a =>
      rw [iterEnsureInline_stable db n a hfind k]
      refine ⟨?_, a.id, rfl⟩
      show countActionsNamed db n = 1
      have := countActionsNamed_pos_of_found db n a hfind
      omega
    | none =>
      cases k with
      | zero => omega
      | succ k0 =>
        have hcnt0 : countActionsNamed db n = 0 := by
          apply List.countP_eq_zero.mpr
          intro a ha
          exact List.find?_eq_none.mp hfind a ha
        have hstep : ensureActionInline db n = (db.next_id, insertActionRow db n) := by
          unfold ensureActionInline freshId insertActionRow
          rw [hfind]
        have hfound2 : findActionByName (insertActionRow db n) n =
            some ⟨db.next_id, n⟩ := by
          unfold findActionByName insertActionRow
          unfold findActionByName at hfind
          rw [find_append_none _ hfind]
          simp [List.find?]
        have hcnt1 : countActionsNamed (insertActionRow db n) n = 1 := by
          unfold countActionsNamed insertActionRow
          unfold countActionsNamed at hcnt0
          rw [List.countP_append, hcnt0]
          simp
        unfold iterEnsureInline
        rw [hstep]
        dsimp only
        rw [iterEnsureInline_stable _ n ⟨db.next_id, n⟩ hfound2 k0]
        exact ⟨hcnt1, db.next_id, rfl⟩
  · cases k with
    | zero => omega
    | succ k0 =>
      have hstep : ensure_action_id st n =
          (st.2.next_id, ((n, st.2.next_id) :: st.1, insertActionRow st.2 n)) := by
        unfold ensure_action_id freshId insertActionRow
        rw [h2]
      have hlook2 : (((n, st.2.next_id) :: st.1).lookup n) = some st.2.next_id := by
        simp [List.lookup]
      have hcnt1 : countActionsNamed (insertActionRow st.2 n) n = 1 := by
        unfold countActionsNamed insertActionRow
        unfold countActionsNamed at h3
        rw [List.countP_append, h3]
        simp
      unfold iterEnsureId
      rw [hstep]
      dsimp only
      rw [iterEnsureId_stable ((n, st.2.next_id) :: st.1, insertActionRow st.2 n) n
        st.2.next_id hlook2 k0]
      exact ⟨hcnt1, st.2.next_id, rfl⟩

theorem ensure_action_spec_witness :
    (countActionsNamed (iterEnsureInline emptyDB "Oil" 3).2 "Oil" = 1 ∧
      ∃ aid, (iterEnsureInline emptyDB "Oil" 3).1 = List.replicate 3 aid) ∧
    (countActionsNamed (iterEnsureId ([], emptyDB) "Oil" 3).2.2 "Oil" = 1 ∧
      ∃ aid, (iterEnsureId ([], emptyDB) "Oil" 3).1 = List.replicate 3 aid) :=
  ensure_action_spec emptyDB ([], emptyDB) "Oil" 3 (by decide) (by decide) rfl rfl

/-- Well-formedness of the action registry: distinct row ids, all below
the fresh-id counter. -/
def ActionIdsOk (db : DB) : Prop :=
  db.actions.Pairwise (fun a b => a.id ≠ b.id) ∧ ∀ a ∈ db.actions, a.id < db.next_id

instance (db : DB) : Decidable (ActionIdsOk db) := by
  unfold ActionIdsOk
  infer_instance

/-- The plan-item readback of the edit and show pages: the plan items
ordered by order index, joined to `actions` for the display name. -/
def planItemView (db : DB) (pid : Nat) : List (Int × String) :=
  (sortByKey (fun i => i.order_index)
    (db.action_items.filter (fun i => i.action_plan == pid))).filterMap
    (fun i => (db.actions.find? (fun a => a.id == i.action)).map
      (fun a => (i.order_index, a.name)))

theorem find_append_some {α : Type} {p : α → Bool} {l1 : List α} (l2 : List α) {a : α}
    (h : l1.find? p = some a) : (l1 ++ l2).find? p = some a := by
  simp [List.find?_append, h]

theorem find_id_of_mem (l : List Action) (hpw : l.Pairwise (fun x y => x.id ≠ y.id))
    (a : Action) (ha : a ∈ l) : l.find? (fun x => x.id == a.id) = some a := by
  induction l with
  | nil => cases ha
  | cons x xs ih =>
    rcases List.mem_cons.mp ha with h | h
    · subst h
      simp [List.find?]
    · have hne : x.id ≠ a.id := (List.pairwise_cons.mp hpw).1 a h
      have hf : (x.id == a.id) = false := by simpa using hne
      simp only [List.find?, hf]
      exact ih (List.pairwise_cons.mp hpw).2 h

theorem sortByKey_eq_self {α : Type} (key : α → Int) (l : List α)
    (h : l.Pairwise (fun a b => key a < key b)) : sortByKey key l = l := by
  induction l with
  | nil => rfl
  | cons x xs ih =>
    unfold sortByKey
    rw [ih (List.pairwise_cons.mp h).2]
    cases xs with
    | nil => rfl
    | cons y ys =>
      have hxy : key x < key y := (List.pairwise_cons.mp h).1 y (by simp)
      unfold insertByKey
      rw [if_neg (by omega)]

theorem ensureActionInline_spec (db : DB) (n : String) (hWF : ActionIdsOk db) :
    ∃ (ext : List Action) (a0 : Action),
      (ensureActionInline db n).2.actions = db.actions ++ ext ∧
      (ensureActionInline db n).2.action_items = db.action_items ∧
      db.next_id ≤ (ensureActionInline db n).2.next_id ∧
      ActionIdsOk (ensureActionInline db n).2 ∧
      (ensureActionInline db n).2.actions.find?
        (fun a => a.id == (ensureActionInline db n).1) = some a0 ∧
      a0.name = n := by
  unfold ensureActionInline
  cases hfind : findActionByName db n with
  | some a =>
    refine ⟨[], a, by simp, rfl, le_refl _, hWF, ?_, ?_⟩
    · exact find_id_of_mem db.actions hWF.1 a
        (@List.mem_of_find?_eq_some Action (fun x => x.name == n) a db.actions hfind)
    · have := @List.find?_some Action (fun x => x.name == n) a db.actions hfind
      simpa using this
  | none =>
    have hnone : db.actions.find? (fun x => x.id == db.next_id) = none := by
      apply List.find?_eq_none.mpr
      intro x hx
      have := hWF.2 x hx
      simp
      omega
    refine ⟨[⟨db.next_id, n⟩], ⟨db.next_id, n⟩, rfl, rfl, by dsimp [freshId]; omega, ?_, ?_, rfl⟩
    · constructor
      · dsimp only [freshId]
        rw [List.pairwise_append]
        refine ⟨hWF.1, by simp, ?_⟩
        intro x hx y hy
        rcases List.mem_singleton.mp hy with rfl
        have := hWF.2 x hx
        show x.id ≠ db.next_id
        omega
      · dsimp only [freshId]
        intro a ha
        rcases List.mem_append.mp ha with h | h
        · have := hWF.2 a h
          omega
        · rcases List.mem_singleton.mp h with rfl
          simp
    · dsimp only [freshId]
      rw [find_append_none _ hnone]
      simp [List.find?]

theorem planItemStep_spec (db : DB) (pid : Nat) (n : String) (order : Nat)
    (hWF : ActionIdsOk db) :
    ∃ (item : PlanItem) (a0 : Action) (ext : List Action),
      (planItemStep db pid n order).action_items = db.action_items ++ [item] ∧
      item.action_plan = pid ∧ item.order_index = (order : Int) ∧
      (planItemStep db pid n order).actions = db.actions ++ ext ∧
      (planItemStep db pid n order).actions.find?
        (fun a => a.id == item.action) = some a0 ∧
      a0.name = n ∧
      ActionIdsOk (planItemStep db pid n order) ∧
      db.next_id ≤ (planItemStep db pid n order).next_id := by
  obtain ⟨ext, a0, hact, hitems, hnext, hWF2, hfind, hname⟩ :=
    ensureActionInline_spec db n hWF
  rcases hE : ensureActionInline db n with ⟨aid, dbA⟩
  rw [hE] at hact hitems hnext hWF2 hfind
  simp only at hact hitems hnext hWF2 hfind
  have hstep : planItemStep db pid n order =
      { dbA with
        action_items := dbA.action_items ++ [⟨dbA.next_id, (order : Int), pid, aid⟩]
        next_id := dbA.next_id + 1 } := by
    unfold planItemStep freshId
    rw [hE]
  refine ⟨⟨dbA.next_id, (order : Int), pid, aid⟩, a0, ext, ?_, rfl, rfl, ?_, ?_, hname, ?_, ?_⟩
  · rw [hstep]
    simp only
    rw [hitems]
  · rw [hstep]
    simp only
    exact hact
  · rw [hstep]
    simp only
    exact hfind
  · rw [hstep]
    constructor
    · exact hWF2.1
    · intro a ha
      have := hWF2.2 a ha
      simp only
      omega
  · rw [hstep]
    simp only
    omega

theorem insertPlanItems_spec (pid : Nat) (names : List String) :
    ∀ (db : DB) (order : Nat), ActionIdsOk db →
    ∃ L : List PlanItem,
      (insertPlanItems db pid names order).action_items = db.action_items ++ L ∧
      (∀ i ∈ L, i.action_plan = pid) ∧
      (∀ i ∈ L, (order : Int) ≤ i.order_index) ∧
      L.Pairwise (fun i j => i.order_index < j.order_index) ∧
      L.filterMap (fun i =>
        ((insertPlanItems db pid names order).actions.find?
          (fun a => a.id == i.action)).map (fun a => (i.order_index, a.name))) =
        (names.enumFrom order).map (fun p => (((p.1 : Nat) : Int), p.2)) ∧
      (∃ ext, (insertPlanItems db pid names order).actions = db.actions ++ ext) ∧
      ActionIdsOk (insertPlanItems db pid names order) ∧
      db.next_id ≤ (insertPlanItems db pid names order).next_id := by
  induction names with
  | nil =>
    intro db order hWF
    refine ⟨[], by simp [insertPlanItems], by simp, by simp, by simp, by simp,
      ⟨[], by simp [insertPlanItems]⟩, ?_, ?_⟩
    · simpa only [insertPlanItems] using hWF
    · simp [insertPlanItems]
  | cons n rest ih =>
    intro db order hWF
    obtain ⟨item, a0, ext, hitems, hplan, horder, hact, hfind, hname, hWF2, hnext⟩ :=
      planItemStep_spec db pid n order hWF
    obtain ⟨L, ihitems, ihplan, ihorder, ihpw, ihview, ⟨ext2, ihact⟩, ihWF, ihnext⟩ :=
      ih (planItemStep db pid n order) (order + 1) hWF2
    have hunfold : insertPlanItems db pid (n :: rest) order =
        insertPlanItems (planItemStep db pid n order) pid rest (order + 1) := rfl
    rw [hunfold]
    refine ⟨item :: L, ?_, ?_, ?_, ?_, ?_, ?_, ihWF, ?_⟩
    · rw [ihitems, hitems]
      simp
    · intro i hi
      rcases List.mem_cons.mp hi with rfl | hi
      · exact hplan
      · exact ihplan i hi
    · intro i hi
      rcases List.mem_cons.mp hi with rfl | hi
      · rw [horder]
      · have := ihorder i hi
        omega
    · rw [List.pairwise_cons]
      refine ⟨?_, ihpw⟩
      intro j hj
      have := ihorder j hj
      rw [horder]
      omega
    · have hfind2 : (insertPlanItems (planItemStep db pid n order) pid rest
          (order + 1)).actions.find? (fun a => a.id == item.action) = some a0 := by
        rw [ihact]
        exact find_append_some _ hfind
      have hfitem : ((insertPlanItems (planItemStep db pid n order) pid rest
          (order + 1)).actions.find? (fun a => a.id == item.action)).map
          (fun a => (item.order_index, a.name)) = some (item.order_index, a0.name) := by
        rw [hfind2]
        rfl
      rw [@List.filterMap_cons_some PlanItem (Int × String)
        (fun i => ((insertPlanItems (planItemStep db pid n order) pid rest
          (order + 1)).actions.find? (fun a => a.id == i.action)).map
          (fun a => (i.order_index, a.name)))
        item L (item.order_index, a0.name) hfitem, List.enumFrom_cons, List.map_cons,
        horder, hname, ihview]
    · refine ⟨ext ++ ext2, ?_⟩
      rw [ihact, hact]
      simp
    · omega

theorem replace_items_view (db : DB) (pid : Nat) (items : Option (List String))
    (hWF : ActionIdsOk db) :
    planItemView (update_plan_items db pid items none) pid =
      (normalize_items items).enum.map (fun p => (((p.1 : Nat) : Int), p.2)) ∧
    ActionIdsOk (update_plan_items db pid items none) := by
  have hred : update_plan_items db pid items none =
      insertPlanItems (deletePlanItems db pid) pid (normalize_items items) 0 := rfl
  have hWF2 : ActionIdsOk (deletePlanItems db pid) := hWF
  obtain ⟨L, h1, h2, h3, h4, h5, ⟨ext, h6⟩, h7, h8⟩ :=
    insertPlanItems_spec pid (normalize_items items) (deletePlanItems db pid) 0 hWF2
  constructor
  · rw [hred]
    unfold planItemView
    rw [h1, List.filter_append]
    have hA : (deletePlanItems db pid).action_items.filter
        (fun i => i.action_plan == pid) = [] := by
      apply List.filter_eq_nil_iff.mpr
      intro x hx
      have hx2 := (List.mem_filter.mp hx).2
      simp only [deletePlanItems, Bool.not_eq_true'] at hx2
      simp [hx2]
    have hB : L.filter (fun i => i.action_plan == pid) = L := by
      apply List.filter_eq_self.mpr
      intro i hi
      simp [h2 i hi]
    rw [hA, hB, List.nil_append, sortByKey_eq_self _ L h4, h5]
    rfl
  · rw [hred]
    exact h7

/-- C8.  After `replace_items` (the no-execution plan edit path) the plan
items read back, in order-index order, as exactly the trimmed non-empty
input names with dense order indices 0..n-1 (the enumeration of the
normalized names); and a second run with the same input produces the same
observable item list, up to the regenerated row ids.  The well-formedness
hypothesis is the schema invariant: distinct action ids, all below the
fresh-id counter. -/
theorem replace_items_spec (db : DB) (pid : Nat) (items : Option (List String))
    (hWF : ActionIdsOk db) :
    planItemView (update_plan_items db pid items none) pid =
      (normalize_items items).enum.map (fun p => (((p.1 : Nat) : Int), p.2)) ∧
    planItemView
        (update_plan_items (update_plan_items db pid items none) pid items none) pid =
      planItemView (update_plan_items db pid items none) pid := by
  obtain ⟨h1, h2⟩ := replace_items_view db pid items hWF
  obtain ⟨h3, _⟩ := replace_items_view (update_plan_items db pid items none) pid items h2
  exact ⟨h1, h3.trans h1.symm⟩

theorem replace_items_spec_witness :
    planItemView (update_plan_items emptyDB 7 (some ["  A ", "", "B"]) none) 7 =
      (normalize_items (some ["  A ", "", "B"])).enum.map
        (fun p => (((p.1 : Nat) : Int), p.2)) ∧
    planItemView (update_plan_items
        (update_plan_items emptyDB 7 (some ["  A ", "", "B"]) none) 7
        (some ["  A ", "", "B"]) none) 7 =
      planItemView (update_plan_items emptyDB 7 (some ["  A ", "", "B"]) none) 7 :=
  replace_items_spec emptyDB 7 (some ["  A ", "", "B"]) (by decide)

end Planner
